import Mathlib

/-!
Verification of the model-evaluation core described by this repository's
specification: stratified k-fold generation, pipeline composition,
cross-validation, and grid-search ranking.  The repository's notebooks drive
these components through library calls; the components themselves are modelled
here from the specification's description of their algorithms and contracts.
-/

namespace MLCore

/-- Error taxonomy of the fold generator, from the spec's error-handling design. -/
inductive KFoldError where
  | invalidConfiguration
  | insufficientSamples
deriving DecidableEq, Repr

/-- Modelled from the spec: the class labels occurring in a label vector
(the values the fold generator groups row indices by).  Missing from src:
the fold-generation code lives in the scikit-learn library, only its caller
appears in the notebooks. -/
def classesOf (y : List ℕ) : List ℕ := y.dedup

/-- Modelled from the spec: "group row indices by label value" — the row
indices of the dataset whose label is `c`, in increasing order. -/
def classIndices (y : List ℕ) (c : ℕ) : List ℕ :=
  (List.range y.length).filter (fun i => y[i]? = some c)

/-- Modelled from the spec: "within each class, distribute its indices across
the k folds in round-robin order" — the members of `idxs` whose position is
congruent to `f` modulo `k`. -/
def roundRobinSlice (idxs : List ℕ) (k f : ℕ) : List ℕ :=
  (idxs.enum.filter (fun p => p.1 % k = f)).map Prod.snd

/-- Modelled from the spec: "a fold's validation set is the union of its
per-class slices". -/
def validationFold (y : List ℕ) (k f : ℕ) : List ℕ :=
  (classesOf y).flatMap (fun c => roundRobinSlice (classIndices y c) k f)

/-- Stratified k-fold generator configuration, as constructed in the notebooks
(`StratifiedKFold(n_splits=3)`). -/
structure StratifiedKFold where
  n_splits : ℕ
deriving Repr

/-- Modelled from the spec: stratified fold generation — a pure function from
(labels, k) to the ordered sequence of k validation index sets, failing with
`InvalidConfigurationError` when k < 2 and with `InsufficientSamplesError`
when some class has fewer members than k. -/
def StratifiedKFold.split (skf : StratifiedKFold) (y : List ℕ) :
    Except KFoldError (List (List ℕ)) :=
  let k := skf.n_splits
  if k < 2 then .error .invalidConfiguration
  else if (classesOf y).any (fun c => (classIndices y c).length < k) then
    .error .insufficientSamples
  else .ok ((List.range k).map (validationFold y k))

/-! Basic lemmas about the fold generator. -/

lemma mem_classIndices {y : List ℕ} {c i : ℕ} :
    i ∈ classIndices y c ↔ i < y.length ∧ y[i]? = some c := by
  simp [classIndices, List.mem_filter, List.mem_range]

lemma nodup_classIndices (y : List ℕ) (c : ℕ) : (classIndices y c).Nodup :=
  (List.nodup_range _).filter _

lemma mem_roundRobinSlice {idxs : List ℕ} {k f j : ℕ} :
    j ∈ roundRobinSlice idxs k f ↔ ∃ p, idxs[p]? = some j ∧ p % k = f := by
  constructor
  · intro h
    rcases List.mem_map.mp h with ⟨⟨p, a⟩, hpa, rfl⟩
    rcases List.mem_filter.mp hpa with ⟨hmem, hmod⟩
    exact ⟨p, List.mem_enum_iff_getElem?.mp hmem, by simpa using hmod⟩
  · rintro ⟨p, hget, hmod⟩
    refine List.mem_map.mpr ⟨(p, j), List.mem_filter.mpr ⟨?_, by simpa using hmod⟩, rfl⟩
    exact List.mem_enum_iff_getElem?.mpr hget

lemma length_roundRobinSlice (idxs : List ℕ) (k f : ℕ) :
    (roundRobinSlice idxs k f).length =
      (List.range idxs.length).countP (fun p => p % k = f) := by
  unfold roundRobinSlice
  rw [List.length_map, ← List.countP_eq_length_filter]
  calc List.countP (fun p => decide (p.1 % k = f)) idxs.enum
      = List.countP ((fun q => decide (q % k = f)) ∘ Prod.fst) idxs.enum := rfl
    _ = List.countP (fun q => decide (q % k = f)) (idxs.enum.map Prod.fst) :=
        (List.countP_map _ _ _).symm
    _ = _ := by rw [List.enum_map_fst]

lemma label_of_mem_roundRobinSlice {y : List ℕ} {c k f j : ℕ}
    (h : j ∈ roundRobinSlice (classIndices y c) k f) :
    j < y.length ∧ y[j]? = some c := by
  rcases mem_roundRobinSlice.mp h with ⟨p, hget, -⟩
  have hj : j ∈ classIndices y c := by
    have := List.getElem?_eq_some.mp hget
    rcases this with ⟨hlt, hEq⟩
    exact hEq ▸ List.getElem_mem hlt
  exact mem_classIndices.mp hj

/-- Round-robin count: among the first n naturals, exactly
`n / k + (1 if f < n % k)` are congruent to f modulo k. -/
lemma countP_range_mod (k f : ℕ) (hk : 0 < k) (hf : f < k) :
    ∀ n, (List.range n).countP (fun p => p % k = f) =
      n / k + (if f < n % k then 1 else 0) := by
  intro n
  induction n with
  | zero => simp [hk.ne']
  | succ n ih =>
    rw [List.range_succ, List.countP_append, ih]
    have hqr : k * (n / k) + n % k = n := Nat.div_add_mod n k
    have hr : n % k < k := Nat.mod_lt _ hk
    by_cases hcase : n % k + 1 < k
    · have hdiv : (n + 1) / k = n / k := by
        have h1 : n + 1 = (n % k + 1) + k * (n / k) := by omega
        rw [h1, Nat.add_mul_div_left _ _ hk, Nat.div_eq_of_lt hcase, Nat.zero_add]
      have hmod : (n + 1) % k = n % k + 1 := by
        have h1 : n + 1 = (n % k + 1) + k * (n / k) := by omega
        rw [h1, Nat.add_mul_mod_self_left, Nat.mod_eq_of_lt hcase]
      rw [hdiv, hmod]
      simp only [List.countP_cons, List.countP_nil, Nat.zero_add, decide_eq_true_eq]
      split_ifs <;> omega
    · have hkeq : n % k + 1 = k := by omega
      have hdiv : (n + 1) / k = n / k + 1 := by
        have h1 : n + 1 = 0 + k * (n / k + 1) := by
          rw [Nat.mul_succ]; omega
        rw [h1, Nat.add_mul_div_left _ _ hk, Nat.zero_div, Nat.zero_add]
      have hmod : (n + 1) % k = 0 := by
        have h1 : n + 1 = 0 + k * (n / k + 1) := by
          rw [Nat.mul_succ]; omega
        rw [h1, Nat.add_mul_mod_self_left, Nat.zero_mod]
      rw [hdiv, hmod]
      simp only [List.countP_cons, List.countP_nil, Nat.zero_add, decide_eq_true_eq]
      split_ifs <;> omega

/-- Counting over a union of per-class slices: when the predicate holds on all
of class c's slice and on no other class's slice, the count over the union is
c's slice length. -/
lemma countP_flatMap_eq_length {cs : List ℕ} (hnd : cs.Nodup) {c : ℕ} (hc : c ∈ cs)
    (g : ℕ → List ℕ) (p : ℕ → Bool)
    (hself : ∀ j ∈ g c, p j = true)
    (hother : ∀ c' ∈ cs, c' ≠ c → ∀ j ∈ g c', p j = false) :
    (cs.flatMap g).countP p = (g c).length := by
  induction cs with
  | nil => cases hc
  | cons a cs ih =>
    rw [List.flatMap_cons, List.countP_append]
    rcases List.mem_cons.mp hc with rfl | hcs
    · have htail : (cs.flatMap g).countP p = 0 := by
        refine List.countP_eq_zero.mpr ?_
        intro j hj
        rcases List.mem_flatMap.mp hj with ⟨c', hc', hjc'⟩
        have hne : c' ≠ c := fun h => (List.nodup_cons.mp hnd).1 (h ▸ hc')
        simp [hother c' (List.mem_cons_of_mem _ hc') hne j hjc']
      rw [htail, List.countP_eq_length.mpr hself, Nat.add_zero]
    · have hne : a ≠ c := fun h => (List.nodup_cons.mp hnd).1 (h ▸ hcs)
      have hhead : (g a).countP p = 0 := by
        refine List.countP_eq_zero.mpr ?_
        intro j hj
        simp [hother a (List.mem_cons_self a cs) hne j hj]
      rw [hhead, Nat.zero_add]
      exact ih (List.nodup_cons.mp hnd).2 hcs
        (fun c' hc' => hother c' (List.mem_cons_of_mem _ hc'))

/-- Number of members of class c landing in validation fold f. -/
lemma class_count_in_validationFold (y : List ℕ) {c : ℕ} (hc : c ∈ classesOf y)
    (k f : ℕ) :
    (validationFold y k f).countP (fun i => y[i]? = some c) =
      (roundRobinSlice (classIndices y c) k f).length := by
  refine countP_flatMap_eq_length (List.nodup_dedup y) hc _ _ ?_ ?_
  · intro j hj
    exact decide_eq_true (label_of_mem_roundRobinSlice hj).2
  · intro c' _ hne j hj
    have := (label_of_mem_roundRobinSlice hj).2
    simp [this, hne]

lemma stratifiedKFold_split_ok {skf : StratifiedKFold} {y : List ℕ}
    {folds : List (List ℕ)}
    (h : skf.split y = .ok folds) :
    2 ≤ skf.n_splits ∧
    (∀ c ∈ classesOf y, skf.n_splits ≤ (classIndices y c).length) ∧
    folds = (List.range skf.n_splits).map (validationFold y skf.n_splits) := by
  unfold StratifiedKFold.split at h
  by_cases h1 : skf.n_splits < 2
  · simp [h1] at h
  by_cases h2 : (classesOf y).any (fun c => (classIndices y c).length < skf.n_splits)
  · simp [h1, h2] at h
  · simp [h1, h2] at h
    refine ⟨by omega, ?_, h.symm⟩
    intro c hc
    have := List.any_eq_false.mp (Bool.of_not_eq_true h2) c hc
    simp at this
    omega

/-- C2: under the claim's hypotheses the generator succeeds with exactly k
validation folds, pairwise disjoint and covering the full row range. -/
theorem stratified_kfold_partitions (k : ℕ) (y : List ℕ)
    (hk : 2 ≤ k)
    (hmin : ∀ c ∈ classesOf y, k ≤ (classIndices y c).length) :
    ∃ folds, (StratifiedKFold.mk k).split y = .ok folds ∧
      folds.length = k ∧
      folds.Pairwise (fun A B => ∀ i, i ∈ A → i ∉ B) ∧
      (∀ i, (∃ s ∈ folds, i ∈ s) ↔ i < y.length) := by
  have hk0 : 0 < k := by omega
  refine ⟨(List.range k).map (validationFold y k), ?_, ?_, ?_, ?_⟩
  · unfold StratifiedKFold.split
    have h1 : ¬ k < 2 := by omega
    have h2 : (classesOf y).any (fun c => (classIndices y c).length < k) = false := by
      refine List.any_eq_false.mpr ?_
      intro c hc
      simp only [decide_eq_true_eq, not_lt]
      exact hmin c hc
    simp [h1, h2]
  · simp
  · rw [List.pairwise_map]
    refine (List.pairwise_lt_range k).imp ?_
    intro f f' hff' i hif hif'
    rcases List.mem_flatMap.mp hif with ⟨c, hc, hslice⟩
    rcases List.mem_flatMap.mp hif' with ⟨c', hc', hslice'⟩
    have hlab := label_of_mem_roundRobinSlice hslice
    have hlab' := label_of_mem_roundRobinSlice hslice'
    have hcc : c = c' := by
      have := hlab.2.symm.trans hlab'.2
      injection this
    subst hcc
    rcases mem_roundRobinSlice.mp hslice with ⟨p, hget, hpf⟩
    rcases mem_roundRobinSlice.mp hslice' with ⟨p', hget', hpf'⟩
    have hplt : p < (classIndices y c).length :=
      (List.getElem?_eq_some.mp hget).1
    have hpp : p = p' :=
      List.getElem?_inj hplt (nodup_classIndices y c) (hget.trans hget'.symm)
    subst hpp
    omega
  · intro i
    constructor
    · rintro ⟨s, hs, his⟩
      rcases List.mem_map.mp hs with ⟨f, -, rfl⟩
      rcases List.mem_flatMap.mp his with ⟨c, -, hslice⟩
      exact (label_of_mem_roundRobinSlice hslice).1
    · intro hi
      have hget : y[i]? = some y[i] := List.getElem?_eq_some.mpr ⟨hi, rfl⟩
      have hcls : y[i] ∈ classesOf y :=
        List.mem_dedup.mpr (List.getElem_mem hi)
      have hidx : i ∈ classIndices y y[i] :=
        mem_classIndices.mpr ⟨hi, hget⟩
      rcases List.mem_iff_getElem.mp hidx with ⟨p, hp, hpe⟩
      refine ⟨validationFold y k (p % k), ?_, ?_⟩
      · exact List.mem_map.mpr ⟨p % k, List.mem_range.mpr (Nat.mod_lt _ hk0), rfl⟩
      · refine List.mem_flatMap.mpr ⟨y[i], hcls, ?_⟩
        exact mem_roundRobinSlice.mpr
          ⟨p, List.getElem?_eq_some.mpr ⟨hp, hpe⟩, rfl⟩

/-- Witness for C2 at a concrete input. -/
theorem stratified_kfold_partitions_witness :
    2 ≤ 2 ∧ (∀ c ∈ classesOf [0, 0, 1, 1], 2 ≤ (classIndices [0, 0, 1, 1] c).length) ∧
    ∃ folds, (StratifiedKFold.mk 2).split [0, 0, 1, 1] = .ok folds ∧
      folds.length = 2 ∧
      folds.Pairwise (fun A B => ∀ i, i ∈ A → i ∉ B) ∧
      (∀ i, (∃ s ∈ folds, i ∈ s) ↔ i < [0, 0, 1, 1].length) :=
  ⟨by decide, by decide,
    stratified_kfold_partitions 2 [0, 0, 1, 1] (by decide) (by decide)⟩

/-- Ceiling division steps up from floor division when k does not divide count. -/
lemma ceil_div_succ (count k : ℕ) (hk0 : 0 < k) (hr : 1 ≤ count % k) :
    (count + k - 1) / k = count / k + 1 := by
  have hqr : k * (count / k) + count % k = count := Nat.div_add_mod count k
  have hrk : count % k < k := Nat.mod_lt _ hk0
  have h2 : count + k - 1 = (count % k - 1) + k * (count / k + 1) := by
    rw [Nat.mul_succ]
    omega
  rw [h2, Nat.add_mul_div_left _ _ hk0, Nat.div_eq_of_lt (by omega), Nat.zero_add]

/-- C3: for every fold the stratified generator returns, the number of members
of any class c assigned to that validation fold is either the floor or the
ceiling of count/k, where count is the size of class c. -/
theorem stratified_kfold_class_balance {skf : StratifiedKFold} {y : List ℕ}
    {folds : List (List ℕ)} (hok : skf.split y = .ok folds)
    {s : List ℕ} (hs : s ∈ folds) {c : ℕ} (hc : c ∈ classesOf y) :
    s.countP (fun i => y[i]? = some c) =
        (classIndices y c).length / skf.n_splits ∨
    s.countP (fun i => y[i]? = some c) =
        ((classIndices y c).length + skf.n_splits - 1) / skf.n_splits := by
  rcases stratifiedKFold_split_ok hok with ⟨hk2, -, rfl⟩
  have hk0 : 0 < skf.n_splits := by omega
  rcases List.mem_map.mp hs with ⟨f, hf, rfl⟩
  have hfk : f < skf.n_splits := List.mem_range.mp hf
  rw [class_count_in_validationFold y hc skf.n_splits f, length_roundRobinSlice,
    countP_range_mod skf.n_splits f hk0 hfk]
  by_cases hind : f < (classIndices y c).length % skf.n_splits
  · right
    rw [ceil_div_succ _ _ hk0 (by omega)]
    simp [hind]
  · left
    simp [hind]

/-- Witness for C3 at a concrete input: labels [0,0,1,1,1], k = 2, class 1. -/
theorem stratified_kfold_class_balance_witness :
    (StratifiedKFold.mk 2).split [0, 0, 1, 1, 1] = .ok [[0, 2, 4], [1, 3]] ∧
    [0, 2, 4] ∈ [[0, 2, 4], [1, 3]] ∧ (1 : ℕ) ∈ classesOf [0, 0, 1, 1, 1] ∧
    (List.countP (fun i => [0, 0, 1, 1, 1][i]? = some 1) [0, 2, 4] =
        (classIndices [0, 0, 1, 1, 1] 1).length / 2 ∨
     List.countP (fun i => [0, 0, 1, 1, 1][i]? = some 1) [0, 2, 4] =
        ((classIndices [0, 0, 1, 1, 1] 1).length + 2 - 1) / 2) :=
  ⟨by rfl, by decide, by decide,
    @stratified_kfold_class_balance (StratifiedKFold.mk 2) [0, 0, 1, 1, 1]
      [[0, 2, 4], [1, 3]] (by rfl) [0, 2, 4] (by decide) 1 (by decide)⟩

/-- C7: fold generation fails with InvalidConfigurationError whenever k < 2,
and with InsufficientSamplesError whenever k ≥ 2 and some class has fewer
members than k; in both cases no folds are produced. -/
theorem stratified_kfold_error_conditions (skf : StratifiedKFold) (y : List ℕ) :
    (skf.n_splits < 2 → skf.split y = .error .invalidConfiguration) ∧
    (2 ≤ skf.n_splits →
      (∃ c ∈ classesOf y, (classIndices y c).length < skf.n_splits) →
      skf.split y = .error .insufficientSamples) := by
  constructor
  · intro h
    simp [StratifiedKFold.split, h]
  · rintro hk ⟨c, hc, hlen⟩
    have h1 : ¬ skf.n_splits < 2 := by omega
    have h2 : (classesOf y).any
        (fun c => (classIndices y c).length < skf.n_splits) = true :=
      List.any_eq_true.mpr ⟨c, hc, by simpa using hlen⟩
    simp [StratifiedKFold.split, h1, h2]

/-- Witness for C7: k = 1 is an invalid configuration, and k = 5 on a class
with only 3 members yields InsufficientSamplesError. -/
theorem stratified_kfold_error_conditions_witness :
    (StratifiedKFold.mk 1).split [0, 1] = .error .invalidConfiguration ∧
    (StratifiedKFold.mk 5).split [0, 0, 0, 1, 1, 1, 1, 1] =
      .error .insufficientSamples :=
  ⟨(stratified_kfold_error_conditions (StratifiedKFold.mk 1) [0, 1]).1
      (by decide),
   (stratified_kfold_error_conditions (StratifiedKFold.mk 5)
      [0, 0, 0, 1, 1, 1, 1, 1]).2 (by decide) (by decide)⟩

/-! Pipeline composition. -/

/-- Feature matrices: rows of rational feature values. -/
abbrev Mat := List (List ℚ)

/-- Modelled from the spec: a transformer-capable estimator used as a
non-terminal pipeline stage — `fit` learns parameters of type P from the data
visible to the stage, `transform` applies learned parameters to features.
Missing from src: the pipeline machinery lives in the scikit-learn library,
the notebooks only construct and call it. -/
structure TransformerSpec (P : Type) where
  fit : Mat → List ℕ → P
  transform : P → Mat → Mat

/-- Modelled from the spec: the terminal estimator contract
(fit / predict / score on learned parameters of type Q). -/
structure EstimatorSpec (Q : Type) where
  fit : Mat → List ℕ → Q
  predict : Q → Mat → List ℕ
  score : Q → Mat → List ℕ → ℚ

/-- An ordered composition of transformer stages and one terminal estimator. -/
structure Pipeline (P Q : Type) where
  stages : List (TransformerSpec P)
  terminal : EstimatorSpec Q

/-- A fitted pipeline: the stages together with their learned parameters. -/
structure FittedPipeline (P Q : Type) where
  stages : List (TransformerSpec P)
  stageParams : List P
  terminal : EstimatorSpec Q
  terminalParams : Q

/-- Modelled from the spec: "for each non-terminal stage in order, fit the
stage on the current features, replace features with that stage's transform
output, then proceed" — returns the learned parameters in stage order and the
fully transformed features. -/
def fitStages {P : Type} : List (TransformerSpec P) → Mat → List ℕ → List P × Mat
  | [], X, _ => ([], X)
  | t :: ts, X, y =>
    let p := t.fit X y
    let r := fitStages ts (t.transform p X) y
    (p :: r.1, r.2)

/-- Modelled from the spec: "finally fit the terminal stage on the fully
transformed features and labels". -/
def Pipeline.fit {P Q : Type} (pl : Pipeline P Q) (X : Mat) (y : List ℕ) :
    FittedPipeline P Q :=
  let r := fitStages pl.stages X y
  ⟨pl.stages, r.1, pl.terminal, pl.terminal.fit r.2 y⟩

/-- Modelled from the spec: apply every non-terminal stage's transform in
order with the given learned parameters; the stages' `fit` is never
consulted. -/
def applyStages {P : Type} : List (TransformerSpec P) → List P → Mat → Mat
  | [], _, X => X
  | _ :: _, [], X => X
  | t :: ts, p :: ps, X => applyStages ts ps (t.transform p X)

/-- Transform of a fitted pipeline: chain the stage transforms with the
parameters learned during fit. -/
def FittedPipeline.transform {P Q : Type} (fp : FittedPipeline P Q)
    (X : Mat) : Mat :=
  applyStages fp.stages fp.stageParams X

/-- Predict of a fitted pipeline: chain the transforms, delegate to the
terminal estimator. -/
def FittedPipeline.predict {P Q : Type} (fp : FittedPipeline P Q)
    (X : Mat) : List ℕ :=
  fp.terminal.predict fp.terminalParams (fp.transform X)

/-- Score of a fitted pipeline: chain the transforms, delegate to the
terminal estimator. -/
def FittedPipeline.score {P Q : Type} (fp : FittedPipeline P Q)
    (X : Mat) (y : List ℕ) : ℚ :=
  fp.terminal.score fp.terminalParams (fp.transform X) y

/-- The transform chain with the parameters produced by fitting reproduces
exactly the features that the fitting loop handed to the terminal stage. -/
lemma applyStages_fitStages {P : Type} :
    ∀ (ts : List (TransformerSpec P)) (X : Mat) (y : List ℕ),
      applyStages ts (fitStages ts X y).1 X = (fitStages ts X y).2
  | [], _, _ => rfl
  | t :: ts, X, y => by
    simp only [fitStages, applyStages]
    exact applyStages_fitStages ts _ y

/-- C4: the pipeline fitting loop fits the first stage on the raw features
and the remaining pipeline on its transform output, the terminal stage on the
fully transformed features; transform chains the fitted stage transforms in
order, predict and score delegate to the terminal estimator on the chained
features, and the terminal's learned parameters are exactly the terminal
estimator fit on the training features pushed through the fitted chain
(no stage is ever re-fit during transform/predict/score). -/
theorem pipeline_fit_contract {P Q : Type} (t : TransformerSpec P)
    (ts : List (TransformerSpec P)) (e : EstimatorSpec Q)
    (X Z : Mat) (y : List ℕ) :
    ((Pipeline.mk (t :: ts) e).fit X y =
      ⟨t :: ts,
       t.fit X y ::
         ((Pipeline.mk ts e).fit (t.transform (t.fit X y) X) y).stageParams,
       e,
       ((Pipeline.mk ts e).fit (t.transform (t.fit X y) X) y).terminalParams⟩) ∧
    ((Pipeline.mk ([] : List (TransformerSpec P)) e).fit X y =
      ⟨[], [], e, e.fit X y⟩) ∧
    (∀ (pl : Pipeline P Q),
      (pl.fit X y).terminalParams =
        pl.terminal.fit ((pl.fit X y).transform X) y) ∧
    (((Pipeline.mk (t :: ts) e).fit X y).transform Z =
      ((Pipeline.mk ts e).fit (t.transform (t.fit X y) X) y).transform
        (t.transform (t.fit X y) Z)) ∧
    (∀ (fp : FittedPipeline P Q),
      fp.predict Z = fp.terminal.predict fp.terminalParams (fp.transform Z) ∧
      fp.score Z y = fp.terminal.score fp.terminalParams (fp.transform Z) y) := by
  refine ⟨rfl, rfl, ?_, rfl, fun fp => ⟨rfl, rfl⟩⟩
  intro pl
  show pl.terminal.fit (fitStages pl.stages X y).2 y =
    pl.terminal.fit (applyStages pl.stages (fitStages pl.stages X y).1 X) y
  rw [applyStages_fitStages]

/-! Cross-validation data selection and the leakage invariant. -/

/-- One train/validation index partition. -/
structure Fold where
  train : List ℕ
  valid : List ℕ
deriving DecidableEq, Repr

/-- Restrict a feature matrix to the given row indices. -/
def selectRows (X : Mat) (idxs : List ℕ) : Mat :=
  idxs.map (fun i => X.getD i [])

/-- Restrict a label vector to the given row indices. -/
def selectLabels (y : List ℕ) (idxs : List ℕ) : List ℕ :=
  idxs.map (fun i => y.getD i 0)

/-- Modelled from the spec: per-fold fitting — a fresh pipeline is fit on the
fold's training partition only. -/
def foldFit {P Q : Type} (pl : Pipeline P Q) (X : Mat) (y : List ℕ)
    (fd : Fold) : FittedPipeline P Q :=
  pl.fit (selectRows X fd.train) (selectLabels y fd.train)

/-- Modelled from the spec: per-fold evaluation — the fitted pipeline is
scored on the held-out partition with its learned parameters fixed. -/
def foldScore {P Q : Type} (pl : Pipeline P Q) (X : Mat) (y : List ℕ)
    (fd : Fold) : ℚ :=
  (foldFit pl X y fd).score (selectRows X fd.valid) (selectLabels y fd.valid)

/-- Modelled from the spec: `cross_validate` — fit and score once per fold,
in fold order. -/
def cross_validate {P Q : Type} (pl : Pipeline P Q) (X : Mat) (y : List ℕ)
    (folds : List Fold) : List ℚ :=
  folds.map (foldScore pl X y)

/-- C1: learned parameters of every stage are a function of the training
partition alone — two datasets agreeing on the fold's training rows and
labels produce identical learned parameters in every stage and in the
terminal estimator, and the held-out evaluation applies those fixed
parameters without re-fitting. -/
theorem pipeline_no_leakage {P Q : Type} (pl : Pipeline P Q)
    (X₁ X₂ : Mat) (y₁ y₂ : List ℕ) (fd : Fold)
    (hX : selectRows X₁ fd.train = selectRows X₂ fd.train)
    (hy : selectLabels y₁ fd.train = selectLabels y₂ fd.train) :
    (foldFit pl X₁ y₁ fd).stageParams = (foldFit pl X₂ y₂ fd).stageParams ∧
    (foldFit pl X₁ y₁ fd).terminalParams =
      (foldFit pl X₂ y₂ fd).terminalParams ∧
    foldScore pl X₁ y₁ fd =
      (foldFit pl X₁ y₁ fd).score (selectRows X₁ fd.valid)
        (selectLabels y₁ fd.valid) := by
  unfold foldScore foldFit
  rw [hX, hy]
  exact ⟨rfl, rfl, rfl⟩

/-- Concrete one-stage pipeline used to witness the leakage invariant. -/
def demoTransformer : TransformerSpec ℚ :=
  ⟨fun X _ => (X.map List.sum).sum, fun p X => X.map (List.map (· + p))⟩

/-- Concrete terminal estimator used to witness the leakage invariant. -/
def demoEstimator : EstimatorSpec ℚ :=
  ⟨fun X y => (X.map List.sum).sum + (y.map (fun n => (n : ℚ))).sum,
   fun _ X => X.map (fun _ => 0),
   fun q X y => q + (X.map List.sum).sum + (y.length : ℚ)⟩

/-- Concrete pipeline used to witness the leakage invariant. -/
def demoPipeline : Pipeline ℚ ℚ := ⟨[demoTransformer], demoEstimator⟩

/-- Witness for C1: two datasets differing only in the held-out row 2 give
identical learned parameters. -/
theorem pipeline_no_leakage_witness :
    selectRows [[1], [2], [30]] (Fold.mk [0, 1] [2]).train =
      selectRows [[1], [2], [99]] (Fold.mk [0, 1] [2]).train ∧
    selectLabels [0, 1, 5] (Fold.mk [0, 1] [2]).train =
      selectLabels [0, 1, 7] (Fold.mk [0, 1] [2]).train ∧
    ((foldFit demoPipeline [[1], [2], [30]] [0, 1, 5]
        (Fold.mk [0, 1] [2])).stageParams =
      (foldFit demoPipeline [[1], [2], [99]] [0, 1, 7]
        (Fold.mk [0, 1] [2])).stageParams ∧
     (foldFit demoPipeline [[1], [2], [30]] [0, 1, 5]
        (Fold.mk [0, 1] [2])).terminalParams =
      (foldFit demoPipeline [[1], [2], [99]] [0, 1, 7]
        (Fold.mk [0, 1] [2])).terminalParams ∧
     foldScore demoPipeline [[1], [2], [30]] [0, 1, 5] (Fold.mk [0, 1] [2]) =
      (foldFit demoPipeline [[1], [2], [30]] [0, 1, 5]
        (Fold.mk [0, 1] [2])).score
        (selectRows [[1], [2], [30]] (Fold.mk [0, 1] [2]).valid)
        (selectLabels [0, 1, 5] (Fold.mk [0, 1] [2]).valid)) :=
  ⟨by decide, by decide,
    pipeline_no_leakage demoPipeline [[1], [2], [30]] [[1], [2], [99]]
      [0, 1, 5] [0, 1, 7] (Fold.mk [0, 1] [2]) (by decide) (by decide)⟩

/-! Score purity: scoring never mutates learned parameters. -/

/-- Mean accuracy of predictions against true labels. -/
def accuracy (pred y : List ℕ) : ℚ :=
  if pred.length = 0 then 0
  else ((pred.zip y).countP (fun p => p.1 = p.2) : ℚ) / (pred.length : ℚ)

/-- A classifier's prediction function over its learned parameters. -/
structure ClassifierModel (Q : Type) where
  predict : Q → Mat → List ℕ

/-- Mutable estimator state: the learned parameters produced by fitting. -/
structure ClassifierState (Q : Type) where
  params : Q

/-- Modelled from the spec: `score` — compute mean accuracy of the
predictions on the given data; the estimator state is read, never written,
so the operation returns it unchanged. -/
def scoreOp {Q : Type} (m : ClassifierModel Q) (s : ClassifierState Q)
    (X : Mat) (y : List ℕ) : ℚ × ClassifierState Q :=
  (accuracy (m.predict s.params X) y, s)

/-- Calling `score` n times in a row, threading the estimator state through
every call. -/
def scoreRepeat {Q : Type} (m : ClassifierModel Q) (s : ClassifierState Q)
    (X : Mat) (y : List ℕ) : ℕ → List ℚ × ClassifierState Q
  | 0 => ([], s)
  | n + 1 =>
    let r := scoreOp m s X y
    let rest := scoreRepeat m r.2 X y n
    (r.1 :: rest.1, rest.2)

/-- C8: scoring N times yields N identical values, leaves the learned
parameters untouched, and a subsequent predict on any features returns
what it would have returned before the score calls. -/
theorem score_no_mutation {Q : Type} (m : ClassifierModel Q)
    (s : ClassifierState Q) (X : Mat) (y : List ℕ) (n : ℕ) (Z : Mat) :
    scoreRepeat m s X y n = (List.replicate n (scoreOp m s X y).1, s) ∧
    m.predict (scoreRepeat m s X y n).2.params Z = m.predict s.params Z := by
  induction n with
  | zero => exact ⟨rfl, rfl⟩
  | succ n ih =>
    refine ⟨?_, ?_⟩
    · show ((scoreOp m s X y).1 :: (scoreRepeat m s X y n).1,
        (scoreRepeat m s X y n).2) = _
      rw [ih.1]
      rfl
    · show m.predict (scoreRepeat m s X y n).2.params Z = _
      exact ih.2

/-! Cross-validator error propagation. -/

/-- A per-fold failure: the failing fold's index and the underlying cause. -/
structure FoldExecutionError (E : Type) where
  foldIndex : ℕ
  cause : E
deriving DecidableEq, Repr

/-- A pipeline whose fit and score may fail (raise), as constructed fresh
per fold by a pipeline factory. -/
structure FalliblePipeline (E F : Type) where
  fit : Mat → List ℕ → Except E F
  score : F → Mat → List ℕ → Except E ℚ

/-- Modelled from the spec: one fold's unit of work — construct a fresh
pipeline via the factory, fit it on the fold's training partition, score the
fitted pipeline on the held-out partition. -/
def runFold {E F : Type} (factory : ℕ → FalliblePipeline E F) (X : Mat)
    (y : List ℕ) (i : ℕ) (fd : Fold) : Except E ℚ := do
  let fp ← (factory i).fit (selectRows X fd.train) (selectLabels y fd.train)
  (factory i).score fp (selectRows X fd.valid) (selectLabels y fd.valid)

/-- Evaluate the folds starting at fold index i, aborting on the first
failure and wrapping it with the failing fold's index. -/
def evaluateFrom {E F : Type} (factory : ℕ → FalliblePipeline E F) (X : Mat)
    (y : List ℕ) : ℕ → List Fold → Except (FoldExecutionError E) (List ℚ)
  | _, [] => .ok []
  | i, fd :: fds =>
    match runFold factory X y i fd with
    | .error e => .error ⟨i, e⟩
    | .ok sc =>
      match evaluateFrom factory X y (i + 1) fds with
      | .error fe => .error fe
      | .ok scs => .ok (sc :: scs)

/-- Modelled from the spec: the Cross-Validator's `evaluate` — per-fold fit
and score in fold order, failing the whole evaluation with a
`FoldExecutionError` if any fold raises. -/
def evaluate {E F : Type} (factory : ℕ → FalliblePipeline E F) (X : Mat)
    (y : List ℕ) (folds : List Fold) : Except (FoldExecutionError E) (List ℚ) :=
  evaluateFrom factory X y 0 folds

/-- Generalized form of C6 over an arbitrary starting fold index. -/
lemma evaluateFrom_error {E F : Type} (factory : ℕ → FalliblePipeline E F)
    (X : Mat) (y : List ℕ) :
    ∀ (folds : List Fold) (i j : ℕ) (e : E),
      j < folds.length →
      runFold factory X y (i + j) (folds.getD j (Fold.mk [] [])) = .error e →
      (∀ l < j, ∃ sc, runFold factory X y (i + l)
        (folds.getD l (Fold.mk [] [])) = .ok sc) →
      evaluateFrom factory X y i folds = .error ⟨i + j, e⟩
  | [], _, j, _, hj, _, _ => by simp at hj
  | fd :: fds, i, 0, e, hj, herr, hpre => by
    simp only [List.getD_cons_zero] at herr
    simp only [evaluateFrom, Nat.add_zero] at herr ⊢
    rw [herr]
  | fd :: fds, i, j + 1, e, hj, herr, hpre => by
    have h0 : ∃ sc, runFold factory X y (i + 0) fd = .ok sc := by
      have := hpre 0 (Nat.succ_pos j)
      simpa using this
    rcases h0 with ⟨sc0, hsc0⟩
    rw [Nat.add_zero] at hsc0
    have hrec : evaluateFrom factory X y (i + 1) fds =
        .error ⟨(i + 1) + j, e⟩ := by
      refine evaluateFrom_error factory X y fds (i + 1) j e ?_ ?_ ?_
      · simpa using Nat.lt_of_succ_lt_succ hj
      · have : i + 1 + j = i + (j + 1) := by omega
        rw [this]
        simpa using herr
      · intro l hl
        have := hpre (l + 1) (Nat.succ_lt_succ hl)
        have heq : i + (l + 1) = i + 1 + l := by omega
        rw [heq] at this
        simpa using this
    simp only [evaluateFrom, hsc0, hrec]
    have : i + 1 + j = i + (j + 1) := by omega
    rw [this]

/-- C6: if some fold's fit or score raises (and the folds before it
succeed), `evaluate` fails the whole evaluation with a FoldExecutionError
carrying that fold's index and the underlying cause — no partial per-fold
score sequence is returned. -/
theorem cross_validator_fails_loudly {E F : Type}
    (factory : ℕ → FalliblePipeline E F) (X : Mat) (y : List ℕ)
    (folds : List Fold) (j : ℕ) (e : E)
    (hj : j < folds.length)
    (herr : runFold factory X y j (folds.getD j (Fold.mk [] [])) = .error e)
    (hpre : ∀ l < j, ∃ sc, runFold factory X y l
      (folds.getD l (Fold.mk [] [])) = .ok sc) :
    evaluate factory X y folds = .error ⟨j, e⟩ ∧
    ∀ scores, evaluate factory X y folds ≠ .ok scores := by
  have h := evaluateFrom_error factory X y folds 0 j e hj
    (by simpa using herr) (by simpa using hpre)
  rw [Nat.zero_add] at h
  exact ⟨h, fun scores hok => by rw [evaluate, h] at hok; cases hok⟩

/-- Concrete fallible pipeline whose fit fails on an empty training matrix. -/
def demoFallible : FalliblePipeline String ℚ :=
  ⟨fun X _ => if X.length = 0 then .error "empty training partition"
    else .ok (X.map List.sum).sum,
   fun f X _ => .ok (f + (X.map List.sum).sum)⟩

/-- Witness for C6: fold 1 has an empty training partition, so evaluation
fails with fold index 1 and the underlying cause. -/
theorem cross_validator_fails_loudly_witness :
    1 < ([Fold.mk [0] [1], Fold.mk [] [0]] : List Fold).length ∧
    runFold (fun _ => demoFallible) [[1], [2]] [0, 1] 1
      ([Fold.mk [0] [1], Fold.mk [] [0]].getD 1 (Fold.mk [] [])) =
      .error "empty training partition" ∧
    evaluate (fun _ => demoFallible) [[1], [2]] [0, 1]
      [Fold.mk [0] [1], Fold.mk [] [0]] =
      .error ⟨1, "empty training partition"⟩ :=
  ⟨by decide, by rfl,
    (cross_validator_fails_loudly (fun _ => demoFallible) [[1], [2]] [0, 1]
      [Fold.mk [0] [1], Fold.mk [] [0]] 1 "empty training partition"
      (by decide) (by rfl)
      (by
        intro l hl
        interval_cases l
        exact ⟨_, rfl⟩)).1⟩

/-! Standard scaler. -/

/-- j-th feature column of a matrix. -/
def column (X : Mat) (j : ℕ) : List ℚ := X.map (fun row => row.getD j 0)

/-- Mean of a list of rationals. -/
def listMean (l : List ℚ) : ℚ := l.sum / (l.length : ℚ)

/-- Population variance of a list of rationals. -/
def listVar (l : List ℚ) : ℚ :=
  ((l.map (fun x => (x - listMean l) ^ 2)).sum) / (l.length : ℚ)

/-- Number of feature columns (taken from the first row). -/
def nCols (X : Mat) : ℕ := (X.headD []).length

/-- Per-feature means. -/
def colMeans (X : Mat) : List ℚ :=
  (List.range (nCols X)).map (fun j => listMean (column X j))

/-- Per-feature variances. -/
def colVars (X : Mat) : List ℚ :=
  (List.range (nCols X)).map (fun j => listVar (column X j))

/-- Learned parameters of the standard scaler: per-feature mean and scale. -/
structure ScalerParams where
  mean_ : List ℚ
  scale_ : List ℚ
deriving DecidableEq, Repr

/-- Modelled from the spec: StandardScaler fitting — learn per-feature mean
and scale (standard deviation).  The floating-point square root taken by the
source is abstracted as the function sqrtA; the statements below hold for
every choice of sqrtA. -/
def scalerFit (sqrtA : ℚ → ℚ) (X : Mat) : ScalerParams :=
  ⟨colMeans X, (colVars X).map sqrtA⟩

/-- Modelled from the spec: StandardScaler transform — center each feature
by the learned mean and divide by the learned scale. -/
def scalerTransform (p : ScalerParams) (X : Mat) : Mat :=
  X.map (fun row => (List.range row.length).map
    (fun j => (row.getD j 0 - p.mean_.getD j 0) / p.scale_.getD j 1))

/-- Modelled from the spec and the transformer contract: fit_transform on a
fresh scaler — learn the parameters from X and produce the standardized
matrix in the same call, returning the resulting learned state alongside. -/
def scalerFitTransform (sqrtA : ℚ → ℚ) (X : Mat) : ScalerParams × Mat :=
  let means := colMeans X
  let scales := (colVars X).map sqrtA
  (⟨means, scales⟩,
   X.map (fun row => (List.range row.length).map
     (fun j => (row.getD j 0 - means.getD j 0) / scales.getD j 1)))

/-- C10: fit_transform on a fresh scaler returns exactly the matrix produced
by fit followed by transform on a fresh scaler, and leaves exactly the same
learned mean and scale parameters. -/
theorem scaler_fit_transform_equiv (sqrtA : ℚ → ℚ) (X : Mat) :
    scalerFitTransform sqrtA X =
      (scalerFit sqrtA X, scalerTransform (scalerFit sqrtA X) X) ∧
    (scalerFitTransform sqrtA X).1.mean_ = (scalerFit sqrtA X).mean_ ∧
    (scalerFitTransform sqrtA X).1.scale_ = (scalerFit sqrtA X).scale_ :=
  ⟨rfl, rfl, rfl⟩

/-! Grid search: expansion, scoring records, ranking. -/

/-- Hyperparameter names. -/
abbrev ParamName := String

/-- One complete hyperparameter configuration. -/
abbrev Config := List (ParamName × ℚ)

/-- Lexicographic comparison of character lists by code point. -/
def charListLE : List Char → List Char → Bool
  | [], _ => true
  | _ :: _, [] => false
  | c :: cs, d :: ds =>
    if c.toNat < d.toNat then true
    else if d.toNat < c.toNat then false
    else charListLE cs ds

/-- Lexicographic order on parameter names. -/
def nameLE (a b : ParamName) : Bool := charListLE a.data b.data

lemma charListLE_total :
    ∀ (a b : List Char), charListLE a b = true ∨ charListLE b a = true
  | [], _ => Or.inl rfl
  | _ :: _, [] => Or.inr rfl
  | c :: cs, d :: ds => by
    simp only [charListLE]
    rcases Nat.lt_trichotomy c.toNat d.toNat with h | h | h
    · left
      rw [if_pos h]
    · rw [if_neg (by omega), if_neg (by omega), if_neg (by omega),
        if_neg (by omega)]
      exact charListLE_total cs ds
    · right
      rw [if_pos h]

lemma charListLE_antisymm :
    ∀ (a b : List Char), charListLE a b = true → charListLE b a = true → a = b
  | [], [] => fun _ _ => rfl
  | [], _ :: _ => fun _ h2 => by simp [charListLE] at h2
  | _ :: _, [] => fun h1 _ => by simp [charListLE] at h1
  | c :: cs, d :: ds => fun h1 h2 => by
    simp only [charListLE] at h1 h2
    rcases Nat.lt_trichotomy c.toNat d.toNat with h | h | h
    · rw [if_neg (by omega), if_pos h] at h2
      cases h2
    · rw [if_neg (by omega), if_neg (by omega)] at h1
      rw [if_neg (by omega), if_neg (by omega)] at h2
      have hcd : c = d := by
        apply Char.ext
        apply UInt32.ext
        exact h
      rw [hcd, charListLE_antisymm cs ds h1 h2]
    · rw [if_neg (by omega), if_pos h] at h1
      cases h1

lemma charListLE_trans :
    ∀ (a b c : List Char), charListLE a b = true → charListLE b c = true →
      charListLE a c = true
  | [], _, _ => fun _ _ => rfl
  | _ :: _, [], _ => fun h1 _ => by simp [charListLE] at h1
  | _ :: _, _ :: _, [] => fun _ h2 => by simp [charListLE] at h2
  | x :: xs, y :: ys, z :: zs => fun h1 h2 => by
    simp only [charListLE] at h1 h2 ⊢
    rcases Nat.lt_trichotomy x.toNat y.toNat with hxy | hxy | hxy
    · rcases Nat.lt_trichotomy y.toNat z.toNat with hyz | hyz | hyz
      · rw [if_pos (by omega)]
      · rw [if_pos (by omega)]
      · rw [if_neg (by omega), if_pos hyz] at h2
        cases h2
    · rcases Nat.lt_trichotomy y.toNat z.toNat with hyz | hyz | hyz
      · rw [if_pos (by omega)]
      · rw [if_neg (by omega), if_neg (by omega)] at h1
        rw [if_neg (by omega), if_neg (by omega)] at h2
        rw [if_neg (by omega), if_neg (by omega)]
        exact charListLE_trans xs ys zs h1 h2
      · rw [if_neg (by omega), if_pos hyz] at h2
        cases h2
    · rw [if_neg (by omega), if_pos hxy] at h1
      cases h1

lemma nameLE_total (a b : ParamName) : nameLE a b = true ∨ nameLE b a = true :=
  charListLE_total a.data b.data

lemma nameLE_antisymm {a b : ParamName}
    (h1 : nameLE a b = true) (h2 : nameLE b a = true) : a = b :=
  String.ext (charListLE_antisymm a.data b.data h1 h2)

lemma nameLE_trans {a b c : ParamName}
    (h1 : nameLE a b = true) (h2 : nameLE b c = true) : nameLE a c = true :=
  charListLE_trans a.data b.data c.data h1 h2

/-- Sort grid entries lexicographically by parameter name. -/
def sortGridByName (g : List (ParamName × List ℚ)) :
    List (ParamName × List ℚ) :=
  List.insertionSort (fun a b => nameLE a.1 b.1 = true) g

/-- Modelled from the spec: expansion of a name-sorted grid — the Cartesian
product, keeping candidate-value order within each name. -/
def expandSorted : List (ParamName × List ℚ) → List Config
  | [] => [[]]
  | (nm, vs) :: rest =>
    vs.flatMap (fun v => (expandSorted rest).map (fun c => (nm, v) :: c))

/-- Modelled from the spec: grid expansion in lexicographic order over
parameter names, then candidate-value order within each name. -/
def expandGrid (g : List (ParamName × List ℚ)) : List Config :=
  expandSorted (sortGridByName g)

/-- One search result record: first-seen expansion index, configuration and
its per-fold validation scores. -/
structure SearchRecord where
  index : ℕ
  config : Config
  scores : List ℚ
deriving DecidableEq, Repr

/-- Mean validation score of a record. -/
def recMean (r : SearchRecord) : ℚ := r.scores.sum / (r.scores.length : ℚ)

/-- Validation-score variance of a record; the standard deviation is its
square root, and since the square root is strictly monotone on nonnegative
values, ordering by standard deviation coincides with ordering by
variance. -/
def recVar (r : SearchRecord) : ℚ :=
  ((r.scores.map (fun s => (s - recMean r) ^ 2)).sum) / (r.scores.length : ℚ)

/-- Modelled from the spec: the ranking comparison — descending mean score,
ties broken by ascending standard deviation, then by first-seen order in the
expansion. -/
def rankLE (a b : SearchRecord) : Bool :=
  decide (recMean b < recMean a) ||
  (decide (recMean a = recMean b) &&
    (decide (recVar a < recVar b) ||
     (decide (recVar a = recVar b) && decide (a.index ≤ b.index))))

/-- The search result records in first-seen expansion order, with per-fold
scores supplied by the inner cross-validation cv. -/
def searchRecords (g : List (ParamName × List ℚ)) (cv : Config → List ℚ) :
    List SearchRecord :=
  (expandGrid g).enum.map (fun p => ⟨p.1, p.2, cv p.2⟩)

/-- Modelled from the spec: rank the configurations. -/
def rankResults (g : List (ParamName × List ℚ)) (cv : Config → List ℚ) :
    List SearchRecord :=
  List.insertionSort (fun a b => rankLE a b = true) (searchRecords g cv)

/-- Unfolding of the ranking comparison into its ordering clauses. -/
lemma rankLE_iff (a b : SearchRecord) :
    rankLE a b = true ↔
      recMean b < recMean a ∨
      (recMean a = recMean b ∧
        (recVar a < recVar b ∨
          (recVar a = recVar b ∧ a.index ≤ b.index))) := by
  simp [rankLE, Bool.or_eq_true, Bool.and_eq_true, decide_eq_true_eq]

lemma rankLE_total (a b : SearchRecord) :
    rankLE a b = true ∨ rankLE b a = true := by
  rw [rankLE_iff, rankLE_iff]
  rcases lt_trichotomy (recMean a) (recMean b) with h | h | h
  · right; left; exact h
  · rcases lt_trichotomy (recVar a) (recVar b) with h2 | h2 | h2
    · left; right; exact ⟨h, Or.inl h2⟩
    · rcases Nat.le_total a.index b.index with h3 | h3
      · left; right; exact ⟨h, Or.inr ⟨h2, h3⟩⟩
      · right; right; exact ⟨h.symm, Or.inr ⟨h2.symm, h3⟩⟩
    · right; right; exact ⟨h.symm, Or.inl h2⟩
  · left; left; exact h

lemma rankLE_trans (a b c : SearchRecord)
    (hab : rankLE a b = true) (hbc : rankLE b c = true) :
    rankLE a c = true := by
  rw [rankLE_iff] at hab hbc ⊢
  rcases hab with h1 | ⟨h1, h1'⟩
  · rcases hbc with h2 | ⟨h2, -⟩
    · exact Or.inl (h2.trans h1)
    · exact Or.inl (h2 ▸ h1)
  · rcases hbc with h2 | ⟨h2, h2'⟩
    · exact Or.inl (h1 ▸ h2)
    · refine Or.inr ⟨h1.trans h2, ?_⟩
      rcases h1' with h3 | ⟨h3, h3'⟩
      · rcases h2' with h4 | ⟨h4, -⟩
        · exact Or.inl (h3.trans h4)
        · exact Or.inl (h4 ▸ h3)
      · rcases h2' with h4 | ⟨h4, h4'⟩
        · exact Or.inl (h3 ▸ h4)
        · exact Or.inr ⟨h3.trans h4, h3'.trans h4'⟩

lemma rankLE_antisymm (a b : SearchRecord)
    (hab : rankLE a b = true) (hba : rankLE b a = true) :
    recMean a = recMean b ∧ recVar a = recVar b ∧ a.index = b.index := by
  rw [rankLE_iff] at hab hba
  rcases hab with h1 | ⟨h1, h1'⟩
  · rcases hba with h2 | ⟨h2, -⟩
    · exact absurd h1 (lt_asymm h2)
    · exact absurd h1 (h2 ▸ lt_irrefl _)
  · rcases hba with h2 | ⟨h2, h2'⟩
    · exact absurd h2 (h1 ▸ lt_irrefl _)
    · refine ⟨h1, ?_⟩
      rcases h1' with h3 | ⟨h3, h3'⟩
      · rcases h2' with h4 | ⟨h4, -⟩
        · exact absurd h3 (lt_asymm h4)
        · exact absurd h3 (h4 ▸ lt_irrefl _)
      · rcases h2' with h4 | ⟨h4, h4'⟩
        · exact absurd h4 (h3 ▸ lt_irrefl _)
        · exact ⟨h3, Nat.le_antisymm h3' h4'⟩

/-- Name-sorting a grid is invariant under permuting the submission order of
its entries, as long as the parameter names are distinct. -/
lemma sortGridByName_perm_eq {g₁ g₂ : List (ParamName × List ℚ)}
    (hnd : (g₁.map Prod.fst).Nodup) (hperm : g₁.Perm g₂) :
    sortGridByName g₁ = sortGridByName g₂ := by
  haveI hTot : IsTotal (ParamName × List ℚ) (fun a b => nameLE a.1 b.1 = true) :=
    ⟨fun a b => nameLE_total a.1 b.1⟩
  haveI hTrans : IsTrans (ParamName × List ℚ) (fun a b => nameLE a.1 b.1 = true) :=
    ⟨fun _ _ _ hab hbc => nameLE_trans hab hbc⟩
  have hp₁ : (sortGridByName g₁).Perm g₁ := List.perm_insertionSort _ g₁
  have hp₂ : (sortGridByName g₂).Perm g₂ := List.perm_insertionSort _ g₂
  have hs₁ : (sortGridByName g₁).Pairwise (fun a b => nameLE a.1 b.1 = true) :=
    List.sorted_insertionSort _ g₁
  have hs₂ : (sortGridByName g₂).Pairwise (fun a b => nameLE a.1 b.1 = true) :=
    List.sorted_insertionSort _ g₂
  have hnd₁ : (sortGridByName g₁).Pairwise (fun a b => a.1 ≠ b.1) := by
    have h : ((sortGridByName g₁).map Prod.fst).Nodup :=
      ((hp₁.map Prod.fst).nodup_iff).mpr hnd
    exact List.pairwise_map.mp h
  have hnd₂ : (sortGridByName g₂).Pairwise (fun a b => a.1 ≠ b.1) := by
    have hnd' : (g₂.map Prod.fst).Nodup :=
      ((hperm.map Prod.fst).nodup_iff).mp hnd
    have h : ((sortGridByName g₂).map Prod.fst).Nodup :=
      ((hp₂.map Prod.fst).nodup_iff).mpr hnd'
    exact List.pairwise_map.mp h
  have hlt₁ : (sortGridByName g₁).Pairwise
      (fun a b => nameLE a.1 b.1 = true ∧ a.1 ≠ b.1) := hs₁.and hnd₁
  have hlt₂ : (sortGridByName g₂).Pairwise
      (fun a b => nameLE a.1 b.1 = true ∧ a.1 ≠ b.1) := hs₂.and hnd₂
  have hperm' : (sortGridByName g₁).Perm (sortGridByName g₂) :=
    hp₁.trans (hperm.trans hp₂.symm)
  haveI : IsAntisymm (ParamName × List ℚ)
      (fun a b => nameLE a.1 b.1 = true ∧ a.1 ≠ b.1) :=
    ⟨fun a b hab hba => (hab.2 (nameLE_antisymm hab.1 hba.1)).elim⟩
  exact List.eq_of_perm_of_sorted hperm' hlt₁ hlt₂

/-- C5: the ranking comparison is a total order (total, transitive, and
antisymmetric on the ranking key); the produced ranking is a permutation of
the result records sorted consistently with it; and re-running the search
with the configuration-submission order shuffled (candidate-value order
unchanged) yields an identical ranking. -/
theorem grid_search_ranking (g₁ g₂ : List (ParamName × List ℚ))
    (cv : Config → List ℚ)
    (hnd : (g₁.map Prod.fst).Nodup) (hperm : g₁.Perm g₂) :
    (∀ a b, rankLE a b = true ∨ rankLE b a = true) ∧
    (∀ a b c, rankLE a b = true → rankLE b c = true → rankLE a c = true) ∧
    (∀ a b, rankLE a b = true → rankLE b a = true →
      recMean a = recMean b ∧ recVar a = recVar b ∧ a.index = b.index) ∧
    (rankResults g₁ cv).Perm (searchRecords g₁ cv) ∧
    (rankResults g₁ cv).Pairwise (fun a b => rankLE a b = true) ∧
    rankResults g₁ cv = rankResults g₂ cv := by
  refine ⟨rankLE_total, rankLE_trans, rankLE_antisymm, ?_, ?_, ?_⟩
  · exact List.perm_insertionSort _ (searchRecords g₁ cv)
  · haveI : IsTotal SearchRecord (fun a b => rankLE a b = true) :=
      ⟨fun a b => rankLE_total a b⟩
    haveI : IsTrans SearchRecord (fun a b => rankLE a b = true) :=
      ⟨fun a b c => rankLE_trans a b c⟩
    exact List.sorted_insertionSort _ (searchRecords g₁ cv)
  · unfold rankResults searchRecords expandGrid
    rw [sortGridByName_perm_eq hnd hperm]

/-- Witness for C5: a two-parameter grid submitted in two different orders
ranks identically. -/
theorem grid_search_ranking_witness :
    (([("A", [1, 2]), ("B", [3])] : List (ParamName × List ℚ)).map
      Prod.fst).Nodup ∧
    (([("A", [1, 2]), ("B", [3])] : List (ParamName × List ℚ)).Perm
      [("B", [3]), ("A", [1, 2])]) ∧
    rankResults [("A", [1, 2]), ("B", [3])] (fun c => c.map Prod.snd) =
      rankResults [("B", [3]), ("A", [1, 2])] (fun c => c.map Prod.snd) :=
  ⟨by decide, by decide,
    (grid_search_ranking [("A", [1, 2]), ("B", [3])]
      [("B", [3]), ("A", [1, 2])] (fun c => c.map Prod.snd)
      (by decide) (by decide)).2.2.2.2.2⟩

/-! Grid-search driver object identity. -/

/-- Grid-search driver: the estimator object it was constructed with and its
parameter grid, as in `GridSearchCV(estimator=..., param_grid=...)`. -/
structure GridSearchCV (M : Type) where
  estimator : M
  param_grid : List (ParamName × List ℚ)

/-- A record of one fit performed by the search: the base estimator object
the configuration was applied to, and the configuration. -/
structure FitEvent (M : Type) where
  base : M
  config : Config
deriving DecidableEq, Repr

/-- Modelled from the spec: during `fit` the search builds one configured
copy of its own estimator per grid configuration, in expansion order, and
cross-validates it; no other estimator instance is touched. -/
def GridSearchCV.fitEvents {M : Type} (s : GridSearchCV M) :
    List (FitEvent M) :=
  (expandGrid s.param_grid).map (fun c => ⟨s.estimator, c⟩)

/-- C9: every estimator the search fits, cross-validates and ranks is the
object the search was constructed with; one fit event per expanded
configuration, and its configuration comes from the search's own grid. -/
theorem grid_search_uses_constructed_estimator {M : Type}
    (s : GridSearchCV M) (ev : FitEvent M) (hev : ev ∈ s.fitEvents) :
    ev.base = s.estimator ∧ ev.config ∈ expandGrid s.param_grid ∧
    s.fitEvents.length = (expandGrid s.param_grid).length := by
  rcases List.mem_map.mp hev with ⟨c, hc, rfl⟩
  exact ⟨rfl, hc, List.length_map _ _⟩

/-- Witness for C9 at a concrete search over one parameter. -/
theorem grid_search_uses_constructed_estimator_witness :
    (FitEvent.mk "svc" [("C", 1)] ∈
      (GridSearchCV.mk "svc" [("C", [1, 2])]).fitEvents) ∧
    ((FitEvent.mk "svc" [("C", 1)]).base =
      (GridSearchCV.mk "svc" [("C", [1, 2])]).estimator ∧
     (FitEvent.mk "svc" [("C", 1)]).config ∈
      expandGrid (GridSearchCV.mk "svc" [("C", [1, 2])]).param_grid ∧
     (GridSearchCV.mk "svc" [("C", [1, 2])]).fitEvents.length =
      (expandGrid (GridSearchCV.mk "svc" [("C", [1, 2])]).param_grid).length) :=
  ⟨by decide,
    grid_search_uses_constructed_estimator
      (GridSearchCV.mk "svc" [("C", [1, 2])])
      (FitEvent.mk "svc" [("C", 1)]) (by decide)⟩

end MLCore
